import Mathlib

/-!
# Verification of the `ox` training-log core

Shallow embedding of the weight/rep-scheme grammars (`src/ox/parse.py`),
the domain model and serialization (`src/ox/data.py`), the time-bucketing
and argument parsing of the analytics layer (`src/ox/reports.py`), the
Brzycki estimator (`src/ox/builtins/e1rm.py`) and the reload branch of the
shell (`src/ox/cli.py`).

External libraries are embedded by their documented semantics:
* `pint` quantities become a `Quantity` structure over exact rationals with
  the avoirdupois conversion factor (pound = 0.45359237 kg exactly);
* SQLite's `strftime`/`date` functions (used by `reports.TIME_BINS`) are
  embedded over day numbers (days since 1970-01-01), mirroring SQLite's
  Julian-day arithmetic;
* Python exceptions are made explicit with the `PyRes` result type;
  printing a warning becomes a boolean field of the result.
-/

/-- Result of running a piece of Python code: a value, or an uncaught
exception carrying an error payload (`Unit` when the payload is not
observed by any claim). -/
inductive PyRes (ε : Type) (α : Type) where
  | ok (val : α) : PyRes ε α
  | exn (err : ε) : PyRes ε α
deriving DecidableEq, Repr

/-- Exception-propagating map over a list, mirroring a Python `for` loop
(or comprehension) that appends results and aborts on the first uncaught
exception. -/
def mapMPy (f : α → PyRes Unit β) : List α → PyRes Unit (List β)
  | [] => .ok []
  | a :: as =>
    match f a with
    | .exn e => .exn e
    | .ok b =>
      match mapMPy f as with
      | .exn e => .exn e
      | .ok bs => .ok (b :: bs)

/-! ## Python string primitives

Kernel-reducible (structurally recursive) models of the Python `str`
operations the source uses; Lean's own `String.splitOn`/`trim`/`drop` use
well-founded recursion on byte positions, which the kernel cannot
evaluate. -/

/-- Python `sep in s` / `str.split(sep)` splitting for a one-character
separator: `"".split(c) == [""]`, `"a/b".split("/") == ["a","b"]`,
`"/".split("/") == ["",""]`. -/
def splitChar (sep : Char) : List Char → List (List Char)
  | [] => [[]]
  | c :: rest =>
    let r := splitChar sep rest
    if c == sep then [] :: r
    else
      match r with
      | h :: t => (c :: h) :: t
      | [] => [[c]]

/-- Python `s.split(sep)` for a one-character separator. -/
def py_split (s : String) (sep : Char) : List String :=
  (splitChar sep s.data).map String.mk

/-- Python `c in s` for a one-character needle. -/
def py_in (c : Char) (s : String) : Bool :=
  s.data.contains c

/-- Python `s.strip()`: drop surrounding whitespace. -/
def py_strip (s : String) : String :=
  String.mk (((s.data.dropWhile Char.isWhitespace).reverse.dropWhile
    Char.isWhitespace).reverse)

/-! ## Units (`ox/units.py` instantiates a pint registry; the parser only
ever constructs kilogram and pound quantities) -/

/-- The mass units the program stores (`reports._DB_UNITS = ["kilogram",
"pound"]`; `parse.weight_text_to_quantity` only builds these two). -/
inductive MassUnit where
  | kilogram : MassUnit
  | pound : MassUnit
deriving DecidableEq, Repr

/-- Conversion factor to kilogram. pint defines the avoirdupois pound as
exactly 0.45359237 kg. -/
def unitFactor : MassUnit → ℚ
  | .kilogram => 1
  | .pound => 45359237 / 100000000

/-- A pint quantity: exact magnitude plus mass unit. -/
structure Quantity where
  mag : ℚ
  unit : MassUnit
deriving DecidableEq, Repr

/-- pint addition `a + b`: `b` is converted into `a`'s units. -/
def addQ (a b : Quantity) : Quantity :=
  ⟨a.mag + b.mag * unitFactor b.unit / unitFactor a.unit, a.unit⟩

/-- pint value equality (`==` converts to a common unit before comparing);
comparing a `Quantity` with Python `None` is `False`. -/
def pintEqOpt (a : Quantity) (b : Option Quantity) : Bool :=
  match b with
  | none => false
  | some b => a.mag * unitFactor a.unit == b.mag * unitFactor b.unit

/-! ## Weight grammar (`ox/parse.py`) -/

/-- Python `\w` on the ASCII inputs at hand: letters, digits, underscore. -/
def isWordChar (c : Char) : Bool := c.isAlphanum || c == '_'

/-- Backtracking search of Python's `re.match` for the first alternative
`^(\d+)(\w+)$` of the pattern in `weight_text_to_quantity`: `\d+` greedily
takes the longest digit run that still lets `\w+` (nonempty, to the end)
match, so candidate split points are tried from the digit-run length
downwards.  The second argument is the current candidate length of group 1. -/
def splitNumUnit (cs : List Char) : Nat → Option (List Char × List Char)
  | 0 => none
  | i + 1 =>
    let tail := cs.drop (i + 1)
    if tail.length != 0 && tail.all isWordChar then
      some (cs.take (i + 1), tail)
    else
      splitNumUnit cs i

/-- Match `^(\d+)(\w+)$` against the whole string, returning groups 1 and 2. -/
def reMatchNumUnit (cs : List Char) : Option (List Char × List Char) :=
  splitNumUnit cs (cs.takeWhile Char.isDigit).length

/-- `float("123")` on a digit string: the exact integer value. -/
def digitsToNat (cs : List Char) : Nat :=
  cs.foldl (fun acc c => acc * 10 + (c.toNat - 48)) 0

/-- `parse.weight_text_to_quantity`:

```python
match = re.match(r"^(\d+)(\w+)$|'BW'", weight_text)
if match:
    if match[2] == "kg":   return float(match[1]) * ureg.kilogram
    elif match[2] == "lbs": return float(match[1]) * ureg.pounds
    else:                   return None
else:
    return None
```

The second regex alternative matches the literal `'BW'` (with apostrophes);
when it fires, group 2 is Python `None`, both comparisons fail and the
function returns `None` — observationally identical to no match, so the
embedding folds that branch into the `none` case. -/
def weight_text_to_quantity (s : String) : Option Quantity :=
  match reMatchNumUnit s.data with
  | some (num, unit) =>
    if unit = "kg".data then some ⟨(digitsToNat num : ℚ), .kilogram⟩
    else if unit = "lbs".data then some ⟨(digitsToNat num : ℚ), .pound⟩
    else none
  | none => none

/-- Python `sum(list_of_optional_quantities)`: the accumulator starts at the
int `0`; pint accepts `0 + q` (yielding `q` unchanged), every further
addition converts to the first quantity's units, and any `None` operand
raises an uncaught `TypeError`.  `sum([])` would be the bare int `0`, not a
quantity; it is unreachable here because `str.split` never returns an empty
list, and the embedding reports it as an exception as well. -/
def py_sum_quantities : List (Option Quantity) → PyRes Unit Quantity
  | [] => .exn ()
  | none :: _ => .exn ()
  | some q :: rest => go q rest
where
  go : Quantity → List (Option Quantity) → PyRes Unit Quantity
    | acc, [] => .ok acc
    | _, none :: _ => .exn ()
    | acc, some x :: rest => go (addQ acc x) rest

/-- The per-slice body of `parse.process_weights` (the spec's
`parseCombined`):

```python
if "+" in w:
    result = sum([weight_text_to_quantity(i) for i in w.split("+")])
    weight_objs.append(result)
else:
    result = weight_text_to_quantity(w)
    weight_objs.append(result)
``` -/
def parse_combined (w : String) : PyRes Unit (Option Quantity) :=
  if py_in '+' w then
    match py_sum_quantities ((py_split w '+').map weight_text_to_quantity) with
    | .ok q => .ok (some q)
    | .exn e => .exn e
  else
    .ok (weight_text_to_quantity w)

/-- `parse.process_weights`: split on `/`, handle each slice independently
(the spec's `parseProgressive`).  An exception raised while summing a
combined slice propagates out of the whole call. -/
def process_weights (s : String) : PyRes Unit (List (Option Quantity)) :=
  mapMPy parse_combined (py_split s '/')

/-! ## Rep schemes and `process_details` (`ox/parse.py`) -/

/-- Python `int(s)`: strip surrounding whitespace, optional sign, decimal
digits.  (Underscore digit grouping, accepted by CPython, is not modelled;
no input in this development uses it.)  Raises `ValueError` otherwise. -/
def python_int (s : String) : PyRes Unit Int :=
  let t := py_strip s
  let signDigits : Int × List Char :=
    match t.data with
    | '-' :: rest => (-1, rest)
    | '+' :: rest => (1, rest)
    | cs => (1, cs)
  if signDigits.2.length != 0 && signDigits.2.all Char.isDigit then
    .ok (signDigits.1 * (digitsToNat signDigits.2 : Int))
  else
    .exn ()

/-- The rep-scheme branch at the top of `parse.process_details`:

```python
if "/" in reps_raw:
    reps = [int(r) for r in reps_raw.split("/")]
elif "x" in reps_raw:
    s, r = reps_raw.split("x")
    reps = [int(r) for i in range(int(s))]
```

(no branch taken leaves `reps = None`).  `s, r = ...` unpacking raises
unless the split has exactly two parts; `int(r)` inside the comprehension
is only evaluated when `range(int(s))` is nonempty. -/
def parse_rep_scheme (raw : String) : PyRes Unit (Option (List Int)) :=
  if py_in '/' raw then
    match mapMPy python_int (py_split raw '/') with
    | .ok rs => .ok (some rs)
    | .exn e => .exn e
  else if py_in 'x' raw then
    match py_split raw 'x' with
    | [s, r] =>
      match python_int s with
      | .exn e => .exn e
      | .ok sv =>
        if sv ≤ 0 then .ok (some [])
        else
          match python_int r with
          | .exn e => .exn e
          | .ok rv => .ok (some (List.replicate sv.toNat rv))
    | _ => .exn ()
  else
    .ok none

/-- `data.TrainingSet`: one performed set. `weight = None` is bodyweight. -/
structure TrainingSet where
  reps : Int
  weight : Option Quantity := none
deriving DecidableEq, Repr

/-- `parse.get_or_last`: `lst[min(i, len(lst) - 1)]`.  On an empty list
Python would raise `IndexError`; every call site guards with a
nonemptiness (truthiness) test, so the embedding returns the default
there. -/
def get_or_last [Inhabited α] (lst : List α) (i : Nat) : α :=
  lst.getD (min i (lst.length - 1)) default

/-- The `note:` detail handling in `parse.process_details`:
`re.sub("'|\"", "", note).strip()` — drop single/double quotes, trim. -/
def strip_note (s : String) : String :=
  py_strip (String.mk (s.data.filter (fun c => !(c == '"' || c == Char.ofNat 39))))

/-- The admissible detail fields of an entry (`data.ITEM_FIELDS`); a field
is `none` when the key is absent from the details dict. -/
structure Details where
  weight : Option String := none
  rep_scheme : Option String := none
  time : Option String := none
  distance : Option String := none
  note : Option String := none
deriving DecidableEq, Repr

/-- Result of `process_details`: the `(sets, note)` pair of the source,
plus whether the "potentially incomplete entry" warning was printed. -/
structure DetailsResult where
  sets : List TrainingSet
  note : Option String
  warned : Bool
deriving DecidableEq, Repr

/-- The `for i, r in enumerate(reps)` loop of `process_details`, with `i`
the running index:
`sets.append(TrainingSet(reps=r, weight=get_or_last(weights, i)))`. -/
def build_sets (ws : List (Option Quantity)) : Nat → List Int → List TrainingSet
  | _, [] => []
  | i, r :: rest => TrainingSet.mk r (get_or_last ws i) :: build_sets ws (i + 1) rest

/-- `parse.process_details`: parse the rep scheme, parse the weights, then

```python
if weights and reps:
    if len(weights) > 1 and len(weights) != len(reps):
        print("potentially incomplete entry, assume same weight across sets")
    for i, r in enumerate(reps):
        sets.append(TrainingSet(reps=r, weight=get_or_last(weights, i)))
```

`weights and reps` is Python truthiness: both non-`None` and nonempty
(note that a list of `None` entries is truthy). -/
def process_details (d : Details) : PyRes Unit DetailsResult :=
  match ((match d.rep_scheme with
          | some raw => parse_rep_scheme raw
          | none => .ok none) : PyRes Unit (Option (List Int))) with
  | .exn e => .exn e
  | .ok reps =>
    match ((match d.weight with
            | some w =>
              match process_weights w with
              | .ok ws => .ok (some ws)
              | .exn e => .exn e
            | none => .ok none) : PyRes Unit (Option (List (Option Quantity)))) with
    | .exn e => .exn e
    | .ok weights =>
      let pair : List TrainingSet × Bool :=
        match weights, reps with
        | some ws, some rs =>
          if ws.length != 0 && rs.length != 0 then
            (build_sets ws 0 rs,
             decide (1 < ws.length) && decide (ws.length ≠ rs.length))
          else ([], false)
        | _, _ => ([], false)
      .ok ⟨pair.1, d.note.map strip_note, pair.2⟩

/-! ## Canonical serialization (`ox/data.py`) -/

/-- `data.Movement`. -/
structure Movement where
  name : String
  sets : List TrainingSet
  note : Option String := none
deriving DecidableEq, Repr

/-- `10 ^ k` over ℚ by structural recursion (kernel-evaluable). -/
def pow10 : Nat → ℚ
  | 0 => 1
  | k + 1 => 10 * pow10 k

/-- Smallest number of decimal digits whose shift makes `q` integral, if
one exists below the double-precision print limit. -/
def decimalDigits (q : ℚ) : Option Nat :=
  (List.range 18).find? (fun k => (q * pow10 k).den = 1)

/-- Python `repr(float)` prints the shortest decimal naming the value; for
the terminating decimals this program produces, that is the minimal-digit
decimal expansion.  (Values with no terminating decimal expansion cannot
be produced by `repr(float)` and get an arbitrary rendering.) -/
def decimalRepr (q : ℚ) : String :=
  match decimalDigits q with
  | some k =>
    let n := (q * pow10 k).num
    let sign := if n < 0 then "-" else ""
    let ds := (toString n.natAbs).data
    let ds := if ds.length ≤ k then List.replicate (k + 1 - ds.length) '0' ++ ds else ds
    sign ++ String.mk (ds.take (ds.length - k)) ++ "." ++ String.mk (ds.drop (ds.length - k))
  | none => toString q.num ++ "/" ++ toString q.den

/-- The f-string magnitude of `data._format_weight`:
`int(m) if m == int(m) else m`. -/
def formatMag (q : ℚ) : String :=
  if q.den = 1 then toString q.num else decimalRepr q

/-- `data._format_weight`: `unit_map = {"kilogram": "kg", "pound": "lbs"}`,
then `f"{mag}{unit_str}"`. -/
def _format_weight (w : Quantity) : String :=
  let unit_str :=
    match w.unit with
    | .kilogram => "kg"
    | .pound => "lbs"
  formatMag w.mag ++ unit_str

/-- `data.Movement.to_ox`. -/
def Movement.to_ox (m : Movement) (compact_reps : Bool := false) : String :=
  let parts : List String :=
    if m.sets.length != 0 then
      let weights := m.sets.map (fun s => s.weight)
      let reps := m.sets.map (fun s => s.reps)
      let uniform_weight :=
        weights.all (fun w => w == none) ||
        weights.all (fun w =>
          match w with
          | none => false
          | some q => pintEqOpt q (weights.headD none))
      let wpart :=
        if weights.all (fun w => w == none) then "BW"
        else if uniform_weight then
          match weights.headD none with
          | some q => _format_weight q
          | none => ""   -- unreachable: here some weight is present and all are equal
        else
          String.intercalate "/"
            (weights.map (fun w =>
              match w with
              | some q => _format_weight q
              | none => "BW"))
      let use_compact :=
        reps.all (fun r => r == reps.headD 0) && (compact_reps || uniform_weight)
      let rpart :=
        if use_compact then toString reps.length ++ "x" ++ toString (reps.headD 0)
        else String.intercalate "/" (reps.map (fun r => toString r))
      [wpart, rpart]
    else []
  let parts :=
    match m.note with
    | some s => if s ≠ "" then parts ++ ["\"" ++ s ++ "\""] else parts
    | none => parts
  let detail_str := String.intercalate " " parts
  if detail_str ≠ "" then m.name ++ ": " ++ detail_str else m.name ++ ":"

/-! ## Time bucketing (`ox/reports.py` `TIME_BINS` / `_time_bin_expr`)

`_time_bin_expr` returns one of four SQLite expressions; the bucketing an
input date actually undergoes is SQLite's evaluation of that expression.
Dates are embedded as day numbers (days since 1970-01-01, negative before
it), the form SQLite's Julian-day arithmetic reduces to for whole dates. -/

/-- Civil date of a day number (Howard Hinnant's `civil_from_days`,
the standard proleptic-Gregorian conversion; all divisions act on
nonnegative operands, so Lean's truncating `Int` division matches C). -/
def civilFromDays (z0 : ℤ) : ℤ × ℤ × ℤ :=
  let z := z0 + 719468
  let era := (if 0 ≤ z then z else z - 146096) / 146097
  let doe := z - era * 146097
  let yoe := (doe - doe / 1460 + doe / 36524 - doe / 146096) / 365
  let y := yoe + era * 400
  let doy := doe - (365 * yoe + yoe / 4 - yoe / 100)
  let mp := (5 * doy + 2) / 153
  let d := doy - (153 * mp + 2) / 5 + 1
  let m := if mp < 10 then mp + 3 else mp - 9
  (if m ≤ 2 then y + 1 else y, m, d)

/-- Day number of a civil date (Hinnant's `days_from_civil`). -/
def daysFromCivil (y m d : ℤ) : ℤ :=
  let y' := if m ≤ 2 then y - 1 else y
  let era := (if 0 ≤ y' then y' else y' - 399) / 400
  let yoe := y' - era * 400
  let mp := if 2 < m then m - 3 else m + 9
  let doy := (153 * mp + 2) / 5 + d - 1
  let doe := yoe * 365 + yoe / 4 - yoe / 100 + doy
  era * 146097 + doe - 719468

def yearOf (n : ℤ) : ℤ := (civilFromDays n).1
def monthOf (n : ℤ) : ℤ := (civilFromDays n).2.1
def dayOf (n : ℤ) : ℤ := (civilFromDays n).2.2

/-- SQLite `strftime('%w', d)`: day of week, Sunday = 0 (1970-01-01 was a
Thursday; in SQLite's code, `((iJD+129600000)/86400000) % 7` with the
always-positive Julian-day count, which is `(n + 4) mod 7` on day
numbers). -/
def wdaySunday (n : ℤ) : ℤ := (n + 4) % 7

/-- Day of the year, 0-based (SQLite's `nDay`). -/
def dayOfYear (n : ℤ) : ℤ := n - daysFromCivil (yearOf n) 1 1

def pad2 (n : ℤ) : String :=
  if 0 ≤ n ∧ n < 10 then "0" ++ toString n else toString n

def pad4 (n : ℤ) : String :=
  let s := toString n
  if 0 ≤ n ∧ s.length < 4 then String.mk (List.replicate (4 - s.length) '0') ++ s else s

/-- SQLite `strftime('%Y-%m-%d', d)` (the `daily` bin, and the rendering of
the `weekly` bin's date). -/
def sqlite_Ymd (n : ℤ) : String :=
  pad4 (yearOf n) ++ "-" ++ pad2 (monthOf n) ++ "-" ++ pad2 (dayOf n)

/-- SQLite `strftime('%Y-W%W', d)` (the `weekly-num` bin).  `%W` is the
Monday-based week of the year: SQLite computes `(nDay + 7 - wd) / 7` with
`wd` the weekday under Monday = 0 (`(n + 3) mod 7` on day numbers) and
`nDay` the 0-based day of the year; `%Y` is the calendar year. -/
def sqlite_YW (n : ℤ) : String :=
  pad4 (yearOf n) ++ "-W" ++ pad2 ((dayOfYear n + 7 - (n + 3) % 7) / 7)

/-- SQLite `strftime('%Y-%m', d)` (the `monthly` bin). -/
def sqlite_Ym (n : ℤ) : String :=
  pad4 (yearOf n) ++ "-" ++ pad2 (monthOf n)

/-- The four keys of `reports.TIME_BINS`. -/
def TIME_BINS : List String := ["daily", "weekly", "weekly-num", "monthly"]

/-- `reports._time_bin_expr` composed with SQLite's evaluation of the
selected expression on a date: `daily` is `strftime('%Y-%m-%d', date)`,
`weekly` is `date(date, '-' || strftime('%w', date) || ' days')` (subtract
the Sunday-based weekday, i.e. back up to the week's Sunday), `weekly-num`
is `strftime('%Y-W%W', date)`, `monthly` is `strftime('%Y-%m', date)`; an
unknown bin name raises `ValueError` before any SQL runs. -/
def time_bin (bin : String) (n : ℤ) : PyRes Unit String :=
  if bin = "daily" then .ok (sqlite_Ymd n)
  else if bin = "weekly" then .ok (sqlite_Ymd (n - wdaySunday n))
  else if bin = "weekly-num" then .ok (sqlite_YW n)
  else if bin = "monthly" then .ok (sqlite_Ym n)
  else .exn ()

/-- Modelled from the spec: the weekday under Monday = 0 used by `%W`. -/
def mondayWeekday (n : ℤ) : ℤ := (wdaySunday n + 6) % 7

/-- Modelled from the spec: the Monday-based week number (`%W`); week 01
starts at the year's first Monday, earlier days are week 00. -/
def mondayWeekNum (n : ℤ) : ℤ := (dayOfYear n + 7 - mondayWeekday n) / 7

/-- Modelled from the spec: the Sunday-based week number the claim
describes (C `strftime`'s `%U`): week 01 starts at the year's first
Sunday. -/
def sundayWeekNum (n : ℤ) : ℤ := (dayOfYear n + 7 - wdaySunday n) / 7

/-- Modelled from the spec: the ISO-8601 year of a date — the calendar
year of the Thursday of the date's Monday-based week. -/
def isoYear (n : ℤ) : ℤ := yearOf (n - mondayWeekday n + 3)

/-- Modelled from the spec: the weekly-num period key as the claim words
it — "the ISO year plus a zero-padded Sunday-based week number". -/
def specWeeklyNumKey (n : ℤ) : String :=
  pad4 (isoYear n) ++ "-W" ++ pad2 (sundayWeekNum n)

/-! ## Report argument parsing (`ox/reports.py` `parse_report_args`)

Tokenization (`shlex.split`) is performed by the external `shlex` module;
the embedding takes the token list as input. -/

/-- A parsed Python value as stored in the kwargs dict. -/
inductive PyVal where
  | none : PyVal
  | str (s : String) : PyVal
  | int (i : ℤ) : PyVal
deriving DecidableEq, Repr

/-- The value constructor a param declares (`"type": str` in every
registered report; `int` kept for generality). -/
inductive PType where
  | str : PType
  | int : PType
deriving DecidableEq, Repr

/-- `param["type"](value)`. -/
def PType.apply : PType → String → PyRes Unit PyVal
  | .str, v => .ok (.str v)
  | .int, v =>
    match python_int v with
    | .ok i => .ok (.int i)
    | .exn e => .exn e

/-- One param dict of a report's `params` list.  `default := none` models
the `"default"` key being absent (then `param.get("default")` is Python
`None`). -/
structure Param where
  name : String
  ptype : PType
  required : Bool := false
  default : Option PyVal := none
  short : Option String := none
deriving DecidableEq, Repr

/-- The `ValueError` subtypes `parse_report_args` raises, distinguished by
their message shapes. -/
inductive ArgErr where
  | unknownFlag (flag : String)
  | unexpectedArgument (tok : String)
  | missingFlagValue (flag : String)
  | missingRequired (flags : List String)
  | coercion
deriving DecidableEq, Repr

/-- Python dict assignment on an insertion-ordered association list:
overwrite in place if the key exists, else append. -/
def setKey (l : List (String × PyVal)) (k : String) (v : PyVal) :
    List (String × PyVal) :=
  if l.any (fun p => p.1 == k) then
    l.map (fun p => if p.1 == k then (k, v) else p)
  else l ++ [(k, v)]

def hasKey (l : List (String × PyVal)) (k : String) : Bool :=
  l.any (fun p => p.1 == k)

def lookupKey (l : List (String × PyVal)) (k : String) : Option PyVal :=
  (l.find? (fun p => p.1 == k)).map (fun p => p.2)

/-- Python `s.startswith(pre)`. -/
def py_startswith (s : String) (pre : List Char) : Bool :=
  s.data.take pre.length == pre

/-- Python `s[n:]` for nonnegative `n`. -/
def py_drop (s : String) (n : Nat) : String :=
  String.mk (s.data.drop n)

/-- Python `len(s)`. -/
def py_len (s : String) : Nat :=
  s.data.length

/-- `next((p for p in params if p["name"] == key), None)`. -/
def find_param_by_name (params : List Param) (key : String) : Option Param :=
  params.find? (fun p => p.name == key)

/-- `next((p for p in params if p.get("short") == key), None)`. -/
def find_param_by_short (params : List Param) (key : String) : Option Param :=
  params.find? (fun p => p.short == some key)

/-- The token-consuming `while` loop of `parse_report_args`: `--name` long
flags, two-character `-x` short flags, anything else is an unexpected
positional; each flag needs exactly one following value token, which is
coerced with the param's declared type. -/
def consume_tokens (params : List Param) :
    List String → List (String × PyVal) → PyRes ArgErr (List (String × PyVal))
  | [], parsed => .ok parsed
  | tok :: rest, parsed =>
    match ((if py_startswith tok ['-', '-'] then
              match find_param_by_name params (py_drop tok 2) with
              | some p => .ok ("--" ++ py_drop tok 2, p)
              | none => .exn (.unknownFlag ("--" ++ py_drop tok 2))
            else if py_startswith tok ['-'] && py_len tok == 2 then
              match find_param_by_short params (py_drop tok 1) with
              | some p => .ok ("-" ++ py_drop tok 1, p)
              | none => .exn (.unknownFlag ("-" ++ py_drop tok 1))
            else .exn (.unexpectedArgument tok)) : PyRes ArgErr (String × Param)) with
    | .exn e => .exn e
    | .ok (flag, p) =>
      match rest with
      | [] => .exn (.missingFlagValue flag)
      | v :: rest' =>
        match p.ptype.apply v with
        | .exn _ => .exn .coercion
        | .ok val => consume_tokens params rest' (setKey parsed p.name val)

/-- The post-loop of `parse_report_args`: walk the declared params in
order; the first required param with no parsed value raises
`Missing required flag(s)` listing `--` + name for EVERY required param
(not only the missing ones); a non-required absent param receives
`param.get("default")`. -/
def apply_defaults (allParams : List Param) :
    List Param → List (String × PyVal) → PyRes ArgErr (List (String × PyVal))
  | [], parsed => .ok parsed
  | p :: ps, parsed =>
    if hasKey parsed p.name then apply_defaults allParams ps parsed
    else if p.required then
      .exn (.missingRequired
        ((allParams.filter (fun q => q.required)).map (fun q => "--" ++ q.name)))
    else apply_defaults allParams ps (setKey parsed p.name (p.default.getD .none))

/-- `reports.parse_report_args` on the shlex token list. -/
def parse_report_args (params : List Param) (tokens : List String) :
    PyRes ArgErr (List (String × PyVal)) :=
  match consume_tokens params tokens [] with
  | .exn e => .exn e
  | .ok parsed => apply_defaults params params parsed

/-! ## Estimated 1RM (`ox/builtins/e1rm.py`) -/

/-- `e1rm._brzycki`:

```python
if reps >= 37:
    return weight
return weight * 36 / (37 - reps)
``` -/
def _brzycki (weight : ℚ) (reps : ℤ) : ℚ :=
  if 37 ≤ reps then weight else weight * 36 / (37 - (reps : ℚ))

/-! ## The shell's reload branch (`ox/cli.py`) and the projection --/

/-- `data.TrainingSession` (only what the reload claim needs to track). -/
structure TrainingSession where
  date : ℤ
  flag : String
  name : Option String := none
  movements : List Movement := []
deriving DecidableEq, Repr

/-- `data.TrainingLog`. -/
structure TrainingLog where
  sessions : List TrainingSession
deriving DecidableEq, Repr

/-- A SQLite connection holding the projection of a log (`db.create_db`
inserts exactly the log's sessions/movements/sets), or a closed one
(`conn.close()` makes every later query raise). -/
inductive Conn where
  | opened (contents : TrainingLog) : Conn
  | closed : Conn
deriving DecidableEq, Repr

/-- The shell's mutable state around the reload command: the current log
and the current store connection. -/
structure ShellState where
  log : TrainingLog
  conn : Conn
deriving DecidableEq, Repr

/-- The `reload` branch of `cli.cli`:

```python
try:
    log = parse_file(file)
    db.close()
    db = create_db(log)
except Exception as e:
    console.print(f"... Error reloading file: ...")
```

`parse_file` and `create_db` results are inputs (their failures are
environmental).  Note the old connection is closed BEFORE `create_db`
runs; the surrounding `try/except` catches either failure and the loop
continues with whatever `log`/`db` currently hold. -/
def reload_command (st : ShellState) (parse_file : PyRes Unit TrainingLog)
    (create_db : TrainingLog → PyRes Unit Conn) : ShellState :=
  match parse_file with
  | .exn _ => st
  | .ok newLog =>
    match create_db newLog with
    | .ok c => ⟨newLog, c⟩
    | .exn _ => ⟨newLog, .closed⟩

/-! # Helper lemmas -/

/-- Python's `sum` over parsed quantities raises as soon as a `None`
appears among the summands. -/
theorem py_sum_go_mem_none (l : List (Option Quantity)) (acc : Quantity)
    (h : none ∈ l) : py_sum_quantities.go acc l = .exn () := by
  induction l generalizing acc with
  | nil => cases h
  | cons x xs ih =>
    cases x with
    | none => rfl
    | some q =>
      have hxs : none ∈ xs := by
        rcases List.mem_cons.mp h with h' | h'
        · exact absurd h' (by simp)
        · exact h'
      simpa [py_sum_quantities.go] using ih (addQ acc q) hxs

/-- Python's `sum` over all-parsed quantities left-folds pint addition. -/
theorem py_sum_go_all_some (qs : List Quantity) (acc : Quantity) :
    py_sum_quantities.go acc (qs.map some) = .ok (qs.foldl addQ acc) := by
  induction qs generalizing acc with
  | nil => rfl
  | cons x xs ih => simpa [py_sum_quantities.go] using ih (addQ acc x)

theorem py_sum_mem_none (l : List (Option Quantity)) (h : none ∈ l) :
    py_sum_quantities l = .exn () := by
  cases l with
  | nil => rfl
  | cons x xs =>
    cases x with
    | none => rfl
    | some q =>
      have hxs : none ∈ xs := by
        rcases List.mem_cons.mp h with h' | h'
        · exact absurd h' (by simp)
        · exact h'
      simpa [py_sum_quantities] using py_sum_go_mem_none xs q hxs

theorem py_sum_all_some (q : Quantity) (qs : List Quantity) :
    py_sum_quantities (some q :: qs.map some) = .ok (qs.foldl addQ q) := by
  simpa [py_sum_quantities] using py_sum_go_all_some qs q

theorem build_sets_length (ws : List (Option Quantity)) :
    ∀ (i : Nat) (rs : List Int), (build_sets ws i rs).length = rs.length
  | _, [] => rfl
  | i, _ :: rest => by
    simp [build_sets, build_sets_length ws (i + 1) rest]

theorem build_sets_get? (ws : List (Option Quantity)) :
    ∀ (i j : Nat) (rs : List Int),
      (build_sets ws i rs).get? j =
        (rs.get? j).map (fun r => TrainingSet.mk r (get_or_last ws (i + j)))
  | _, _, [] => by simp [build_sets]
  | i, 0, r :: rest => by simp [build_sets]
  | i, j + 1, r :: rest => by
    have h := build_sets_get? ws (i + 1) j rest
    have harith : i + 1 + j = i + (j + 1) := by omega
    simpa [build_sets, harith] using h

theorem get_or_last_of_lt [Inhabited α] (l : List α) (i : Nat) (h : i < l.length) :
    get_or_last l i = l.getD i default := by
  unfold get_or_last
  congr 1
  omega

theorem get_or_last_of_ge [Inhabited α] (l : List α) (i : Nat) (h : l.length ≤ i) :
    get_or_last l i = l.getD (l.length - 1) default := by
  unfold get_or_last
  congr 1
  omega

theorem getD_last_of_getLast? [Inhabited α] :
    ∀ (l : List α) (wl : α), l.getLast? = some wl → l.getD (l.length - 1) default = wl := by
  intro l
  induction l with
  | nil => intro wl h; cases h
  | cons a t ih =>
    intro wl h
    cases t with
    | nil =>
      simp only [List.getLast?_singleton, Option.some.injEq] at h
      simp [h]
    | cons b t' =>
      have h' : (b :: t').getLast? = some wl := by
        rwa [List.getLast?_cons_cons] at h
      have ht := ih wl h'
      simpa [List.length_cons, Nat.succ_sub_one] using ht

theorem getD_all_none :
    ∀ (ws : List (Option Quantity)) (j : Nat), (∀ x ∈ ws, x = none) →
      ws.getD j none = none := by
  intro ws
  induction ws with
  | nil => intro j _; cases j <;> rfl
  | cons a t ih =>
    intro j h
    cases j with
    | zero => simpa using h a (by simp)
    | succ j' =>
      simp only [List.getD_cons_succ]
      exact ih j' (fun x hx => h x (by simp [hx]))

theorem get_or_last_all_none (ws : List (Option Quantity)) (i : Nat)
    (h : ∀ x ∈ ws, x = none) : get_or_last ws i = none := by
  unfold get_or_last
  exact getD_all_none ws _ h

theorem build_sets_all_none (ws : List (Option Quantity)) (h : ∀ x ∈ ws, x = none) :
    ∀ (i : Nat) (rs : List Int),
      build_sets ws i rs = rs.map (fun r => TrainingSet.mk r none)
  | _, [] => rfl
  | i, r :: rest => by
    simp [build_sets, get_or_last_all_none ws i h, build_sets_all_none ws h (i + 1) rest]

theorem lookup_map_overwrite_ne (k : String) (v : PyVal) (k' : String) (h : k' ≠ k) :
    ∀ l : List (String × PyVal),
      lookupKey (l.map fun p => if p.1 == k then (k, v) else p) k' = lookupKey l k' := by
  intro l
  induction l with
  | nil => rfl
  | cons a t ih =>
    unfold lookupKey at ih ⊢
    rw [List.map_cons]
    by_cases ha : (a.1 == k) = true
    · have haeq : a.1 = k := by simpa [beq_iff_eq] using ha
      rw [if_pos ha,
        List.find?_cons_of_neg _ (by simp [beq_iff_eq, Ne.symm h]),
        List.find?_cons_of_neg _ (by simp [beq_iff_eq, haeq, Ne.symm h])]
      exact ih
    · rw [if_neg ha]
      by_cases ha' : (a.1 == k') = true
      · rw [List.find?_cons_of_pos (p := fun q : String × PyVal => q.1 == k') _ ha',
          List.find?_cons_of_pos (p := fun q : String × PyVal => q.1 == k') _ ha']
      · rw [List.find?_cons_of_neg _ (by simp [ha']),
          List.find?_cons_of_neg _ (by simp [ha'])]
        exact ih

theorem lookup_map_overwrite_self (k : String) (v : PyVal) :
    ∀ l : List (String × PyVal), (l.any fun p => p.1 == k) = true →
      lookupKey (l.map fun p => if p.1 == k then (k, v) else p) k = some v := by
  intro l
  induction l with
  | nil => intro hk; simp at hk
  | cons a t ih =>
    intro hk
    unfold lookupKey at ih ⊢
    rw [List.map_cons]
    by_cases ha : (a.1 == k) = true
    · rw [if_pos ha, List.find?_cons_of_pos _ (by simp)]
      rfl
    · have ht : (t.any fun p => p.1 == k) = true := by
        simp only [List.any_cons, Bool.or_eq_true] at hk
        rcases hk with h' | h'
        · exact absurd h' (by simp [ha])
        · exact h'
      rw [if_neg ha, List.find?_cons_of_neg _ (by simp [ha])]
      exact ih ht

theorem lookup_append_single_ne (k : String) (v : PyVal) (k' : String) (h : k' ≠ k) :
    ∀ l : List (String × PyVal), lookupKey (l ++ [(k, v)]) k' = lookupKey l k' := by
  intro l
  induction l with
  | nil =>
    unfold lookupKey
    rw [List.nil_append,
      List.find?_cons_of_neg _ (by simp [beq_iff_eq, Ne.symm h])]
  | cons a t ih =>
    unfold lookupKey at ih ⊢
    rw [List.cons_append]
    by_cases ha : (a.1 == k') = true
    · rw [List.find?_cons_of_pos (p := fun q : String × PyVal => q.1 == k') _ ha,
        List.find?_cons_of_pos (p := fun q : String × PyVal => q.1 == k') _ ha]
    · rw [List.find?_cons_of_neg _ (by simp [ha]),
        List.find?_cons_of_neg _ (by simp [ha])]
      exact ih

theorem lookup_append_single_self (k : String) (v : PyVal) :
    ∀ l : List (String × PyVal), (l.any fun p => p.1 == k) = false →
      lookupKey (l ++ [(k, v)]) k = some v := by
  intro l
  induction l with
  | nil =>
    intro _
    unfold lookupKey
    rw [List.nil_append, List.find?_cons_of_pos _ (by simp)]
    rfl
  | cons a t ih =>
    intro hk
    simp only [List.any_cons, Bool.or_eq_false_iff] at hk
    unfold lookupKey at ih ⊢
    rw [List.cons_append, List.find?_cons_of_neg _ (by simp [hk.1])]
    exact ih hk.2

theorem hasKey_map_overwrite_ne (k : String) (v : PyVal) (k' : String) (h : k' ≠ k) :
    ∀ l : List (String × PyVal),
      hasKey (l.map fun p => if p.1 == k then (k, v) else p) k' = hasKey l k' := by
  intro l
  induction l with
  | nil => rfl
  | cons a t ih =>
    unfold hasKey at ih ⊢
    rw [List.map_cons, List.any_cons, List.any_cons]
    by_cases ha : (a.1 == k) = true
    · have haeq : a.1 = k := by simpa [beq_iff_eq] using ha
      have hne : ((k, v).1 == k') = false := by simp [beq_iff_eq, Ne.symm h]
      have hne' : (a.1 == k') = false := by simp [beq_iff_eq, haeq, Ne.symm h]
      rw [if_pos ha, hne, hne', Bool.false_or, Bool.false_or]
      exact ih
    · rw [if_neg ha, ih]

theorem hasKey_setKey_ne (l : List (String × PyVal)) (k : String) (v : PyVal)
    (k' : String) (h : k' ≠ k) : hasKey (setKey l k v) k' = hasKey l k' := by
  unfold setKey
  by_cases hk : (l.any fun p => p.1 == k) = true
  · rw [if_pos hk]
    exact hasKey_map_overwrite_ne k v k' h l
  · rw [if_neg hk]
    have hne : (k == k') = false := by simp [beq_iff_eq, Ne.symm h]
    simp [hasKey, List.any_append, hne]

theorem hasKey_setKey_self (l : List (String × PyVal)) (k : String) (v : PyVal) :
    hasKey (setKey l k v) k = true := by
  unfold setKey
  by_cases hk : (l.any fun p => p.1 == k) = true
  · rw [if_pos hk]
    unfold hasKey at hk ⊢
    rw [List.any_eq_true] at hk
    obtain ⟨a, ha, hpa⟩ := hk
    rw [List.any_eq_true]
    exact ⟨(k, v), List.mem_map.mpr ⟨a, ha, by simp [hpa]⟩, by simp⟩
  · rw [if_neg hk]
    simp [hasKey, List.any_append]

theorem lookupKey_setKey_self (l : List (String × PyVal)) (k : String) (v : PyVal) :
    lookupKey (setKey l k v) k = some v := by
  unfold setKey
  by_cases hk : (l.any fun p => p.1 == k) = true
  · rw [if_pos hk]
    exact lookup_map_overwrite_self k v l hk
  · rw [if_neg hk]
    exact lookup_append_single_self k v l (Bool.eq_false_iff.mpr hk)

theorem lookupKey_setKey_ne (l : List (String × PyVal)) (k : String) (v : PyVal)
    (k' : String) (h : k' ≠ k) : lookupKey (setKey l k v) k' = lookupKey l k' := by
  unfold setKey
  by_cases hk : (l.any fun p => p.1 == k) = true
  · rw [if_pos hk]
    exact lookup_map_overwrite_ne k v k' h l
  · rw [if_neg hk]
    exact lookup_append_single_ne k v k' h l

/-- Unfolding equation for the post-loop of `parse_report_args`. -/
theorem apply_defaults_cons (allP : List Param) (p : Param) (ps : List Param)
    (parsed : List (String × PyVal)) :
    apply_defaults allP (p :: ps) parsed =
      if hasKey parsed p.name then apply_defaults allP ps parsed
      else if p.required then
        .exn (.missingRequired ((allP.filter (fun q => q.required)).map
          (fun q => "--" ++ q.name)))
      else apply_defaults allP ps (setKey parsed p.name (p.default.getD .none)) := rfl

/-- If any declared required param has no parsed value, the post-loop
raises the `Missing required flag(s)` error, whose list always names every
required param of the full spec. -/
theorem apply_defaults_missing (allP : List Param) :
    ∀ (rem : List Param) (parsed : List (String × PyVal)),
      (rem.map (fun q => q.name)).Nodup →
      (∃ p, p ∈ rem ∧ p.required = true ∧ hasKey parsed p.name = false) →
      apply_defaults allP rem parsed =
        .exn (.missingRequired ((allP.filter (fun q => q.required)).map
          (fun q => "--" ++ q.name))) := by
  intro rem
  induction rem with
  | nil =>
    intro parsed _ h
    obtain ⟨p, hp, _⟩ := h
    exact absurd hp (List.not_mem_nil p)
  | cons p ps ih =>
    intro parsed hnd h
    simp only [List.map_cons, List.nodup_cons] at hnd
    rw [apply_defaults_cons]
    by_cases hk : hasKey parsed p.name = true
    · obtain ⟨q, hq, hreq, hqk⟩ := h
      have hq' : q ∈ ps := by
        rcases List.mem_cons.mp hq with rfl | h'
        · rw [hk] at hqk; cases hqk
        · exact h'
      rw [if_pos hk]
      exact ih parsed hnd.2 ⟨q, hq', hreq, hqk⟩
    · rw [if_neg hk]
      by_cases hreqp : p.required = true
      · rw [if_pos hreqp]
      · obtain ⟨q, hq, hreq, hqk⟩ := h
        have hq' : q ∈ ps := by
          rcases List.mem_cons.mp hq with rfl | h'
          · exact absurd hreq hreqp
          · exact h'
        have hne : q.name ≠ p.name := by
          intro heq
          exact hnd.1 (heq ▸ List.mem_map.mpr ⟨q, hq', rfl⟩)
        have hk' : hasKey (setKey parsed p.name (p.default.getD .none)) q.name = false := by
          rw [hasKey_setKey_ne parsed p.name _ q.name hne]
          exact hqk
        rw [if_neg hreqp]
        exact ih _ hnd.2 ⟨q, hq', hreq, hk'⟩

/-- The post-loop never changes a value that was already parsed. -/
theorem apply_defaults_preserve (allP : List Param) :
    ∀ (rem : List Param) (parsed final : List (String × PyVal)),
      apply_defaults allP rem parsed = .ok final →
      ∀ k, hasKey parsed k = true → lookupKey final k = lookupKey parsed k := by
  intro rem
  induction rem with
  | nil =>
    intro parsed final h k _
    have hpf : parsed = final := by
      simpa [apply_defaults] using h
    rw [hpf]
  | cons p ps ih =>
    intro parsed final h k hkk
    rw [apply_defaults_cons] at h
    by_cases hk : hasKey parsed p.name = true
    · rw [if_pos hk] at h
      exact ih parsed final h k hkk
    · rw [if_neg hk] at h
      by_cases hreq : p.required = true
      · rw [if_pos hreq] at h
        simp at h
      · rw [if_neg hreq] at h
        have hne : k ≠ p.name := by
          intro heq
          rw [heq] at hkk
          exact hk hkk
        have hset : hasKey (setKey parsed p.name (p.default.getD .none)) k = true := by
          rw [hasKey_setKey_ne parsed p.name _ k hne]
          exact hkk
        have h1 := ih _ final h k hset
        rw [h1, lookupKey_setKey_ne parsed p.name _ k hne]

/-- Every declared param that was not supplied receives its declared
default (`param.get("default")`, i.e. `None` when no default was
declared) in the returned mapping. -/
theorem apply_defaults_defaults (allP : List Param) :
    ∀ (rem : List Param) (parsed final : List (String × PyVal)),
      (rem.map (fun q => q.name)).Nodup →
      apply_defaults allP rem parsed = .ok final →
      ∀ p, p ∈ rem → hasKey parsed p.name = false →
        lookupKey final p.name = some (p.default.getD .none) := by
  intro rem
  induction rem with
  | nil =>
    intro parsed final _ _ p hp _
    exact absurd hp (List.not_mem_nil p)
  | cons q qs ih =>
    intro parsed final hnd h p hp hpk
    simp only [List.map_cons, List.nodup_cons] at hnd
    rw [apply_defaults_cons] at h
    by_cases hkq : hasKey parsed q.name = true
    · rw [if_pos hkq] at h
      have hp' : p ∈ qs := by
        rcases List.mem_cons.mp hp with rfl | h'
        · rw [hkq] at hpk; cases hpk
        · exact h'
      exact ih parsed final hnd.2 h p hp' hpk
    · rw [if_neg hkq] at h
      by_cases hreq : q.required = true
      · rw [if_pos hreq] at h
        simp at h
      · rw [if_neg hreq] at h
        rcases List.mem_cons.mp hp with rfl | hp'
        · have hset : hasKey (setKey parsed p.name (p.default.getD .none)) p.name = true :=
            hasKey_setKey_self parsed p.name _
          have hpres := apply_defaults_preserve allP qs _ final h p.name hset
          rw [hpres, lookupKey_setKey_self]
        · have hne : p.name ≠ q.name := by
            intro heq
            exact hnd.1 (heq ▸ List.mem_map.mpr ⟨p, hp', rfl⟩)
          have hpk' : hasKey (setKey parsed q.name (q.default.getD .none)) p.name = false := by
            rw [hasKey_setKey_ne parsed q.name _ p.name hne]
            exact hpk
          exact ih _ final hnd.2 h p hp' hpk'

/-- The shape `process_details` takes when both weights and reps are
present, both parse, and both parsed lists are nonempty (truthy). -/
theorem process_details_formula (d : Details) (w raw : String)
    (ws : List (Option Quantity)) (rs : List Int)
    (hw : d.weight = some w) (hr : d.rep_scheme = some raw)
    (hws : process_weights w = .ok ws) (hrs : parse_rep_scheme raw = .ok (some rs))
    (hwne : ws ≠ []) (hrne : rs ≠ []) :
    process_details d = .ok ⟨build_sets ws 0 rs, d.note.map strip_note,
      decide (1 < ws.length) && decide (ws.length ≠ rs.length)⟩ := by
  have hw0 : (ws.length != 0) = true := by
    simp [List.length_eq_zero]
    exact hwne
  have hr0 : (rs.length != 0) = true := by
    simp [List.length_eq_zero]
    exact hrne
  unfold process_details
  rw [hr, hw]
  simp [hrs, hws, hw0, hr0]

/-! # Claims -/

/-- C1: the spec's unit-alias table and decimal numbers.  The code's own
tests (`tests/test_parse.py`) assert that `"135lb"`, `"135pound"`,
`"2.5kg"`, `"500g"`, `"16oz"`, `"12stone"` and `"24kilogram"` all parse,
but `weight_text_to_quantity` matches only integer magnitudes and only the
unit spellings `kg` and `lbs`; everything else (and `"BW"`) returns
`None`. -/
theorem C1_weight_token_eval :
    weight_text_to_quantity "24kg" = some ⟨24, .kilogram⟩ ∧
    weight_text_to_quantity "135lbs" = some ⟨135, .pound⟩ ∧
    weight_text_to_quantity "135lb" = none ∧
    weight_text_to_quantity "135pound" = none ∧
    weight_text_to_quantity "24kilogram" = none ∧
    weight_text_to_quantity "2.5kg" = none ∧
    weight_text_to_quantity "500g" = none ∧
    weight_text_to_quantity "12stone" = none ∧
    weight_text_to_quantity "BW" = none := by
  decide

/-- C2: `process_weights "160/185/210lb"` produces three parse failures
(each slice is parsed independently; `"160"` and `"185"` have no unit and
fail, and even `"210lb"` fails because the code recognises only `lbs`),
not three pound quantities, and no exception escapes. -/
theorem C2_progressive_parse_failures :
    process_weights "160/185/210lb" = .ok [none, none, none] := by
  decide

/-- C3 counterexample: a combined weight with one unparseable side does
NOT fail as a recovered "no quantity" — `sum` meets the `None` operand and
raises an uncaught exception, contrary to the claim that a parse failure
is never propagated as a crash. -/
theorem C3_counterexample :
    process_weights "24kg+abc" = .exn () ∧
    weight_text_to_quantity "24kg" = some ⟨24, .kilogram⟩ ∧
    weight_text_to_quantity "abc" = none := by
  decide

/-- C3 amended: for every combined weight text (a slice containing `+`),
each side is parsed with `weight_text_to_quantity`; if every side parses,
the result is the pint left-fold sum of the side quantities, but if any
side fails to parse, the evaluation raises an uncaught exception (a
crash), not a locally recovered parse failure. -/
theorem C3_combined_amended (w : String) (h : py_in '+' w = true) :
    (none ∈ (py_split w '+').map weight_text_to_quantity →
      parse_combined w = .exn ()) ∧
    (∀ (q : Quantity) (qs : List Quantity),
      (py_split w '+').map weight_text_to_quantity = some q :: qs.map some →
      parse_combined w = .ok (some (qs.foldl addQ q))) := by
  constructor
  · intro hmem
    simp only [parse_combined, h, if_true]
    rw [py_sum_mem_none _ hmem]
  · intro q qs heq
    simp only [parse_combined, h, if_true]
    rw [heq, py_sum_all_some]

/-- C3 witness: both legs of the amended claim at concrete inputs. -/
theorem C3_combined_amended_witness :
    parse_combined "24kg+32kg" = .ok (some ⟨56, .kilogram⟩) ∧
    parse_combined "24kg+abc" = .exn () := by
  constructor
  · have h := (C3_combined_amended "24kg+32kg" (by decide)).2
      ⟨24, .kilogram⟩ [⟨32, .kilogram⟩] (by decide)
    rw [h]
    have hadd : addQ ⟨24, .kilogram⟩ ⟨32, .kilogram⟩ = ⟨56, .kilogram⟩ := by
      simp [addQ, unitFactor]
      norm_num
    simp [hadd]
  · exact (C3_combined_amended "24kg+abc" (by decide)).1 (by decide)

/-- C5: round-tripping a uniform Movement through `to_ox` and the parser.
The code's own tests assert `weight_text_to_quantity "2.5kg" = 2.5 kg`
(`test_parse_decimal_weight`), but the parser accepts only integer
magnitudes, so a movement whose shared weight is 2.5 kg renders as
`2.5kg` and re-parses to NO quantity: `process_details` then rebuilds the
sets as bodyweight sets, losing the weight — the serialize/parse
round trip fails. -/
theorem C5_roundtrip_eval :
    (Movement.mk "squat" [⟨5, some ⟨5 / 2, .kilogram⟩⟩] none).to_ox =
      "squat: 2.5kg 1x5" ∧
    weight_text_to_quantity "2.5kg" = none ∧
    process_details ⟨some "2.5kg", some "1x5", none, none, none⟩ =
      .ok ⟨[⟨5, none⟩], none, false⟩ ∧
    (some (Quantity.mk (5 / 2) .kilogram) ≠ (none : Option Quantity)) := by
  refine ⟨by with_unfolding_all rfl, by decide, by decide, by simp⟩

/-- C8 counterexample: a reload whose `create_db` fails does NOT leave the
previously active store intact: the old connection was already closed
before the new projection was built, so the state ends with a closed
connection (every later query raises), not the prior projection. -/
theorem C8_counterexample :
    reload_command ⟨⟨[]⟩, .opened ⟨[]⟩⟩
        (.ok ⟨[⟨19723, "*", none, []⟩]⟩) (fun _ => .exn ()) =
      ⟨⟨[⟨19723, "*", none, []⟩]⟩, .closed⟩ ∧
    (Conn.closed ≠ Conn.opened ⟨[]⟩) := by
  constructor
  · rfl
  · decide

/-- C8 amended: a failure of `parse_file` leaves the previous state (log
and open projection) fully intact; but the old projection is closed before
`create_db` runs, so a construction failure inside `create_db` leaves the
shell with the new log and a CLOSED connection — the prior projection is
destroyed, not preserved.  Only a successful reload installs the new
projection. -/
theorem C8_reload_amended (st : ShellState) (cd : TrainingLog → PyRes Unit Conn) :
    (∀ e, reload_command st (.exn e) cd = st) ∧
    (∀ l c, cd l = .ok c → reload_command st (.ok l) cd = ⟨l, c⟩) ∧
    (∀ l e, cd l = .exn e → reload_command st (.ok l) cd = ⟨l, .closed⟩) := by
  refine ⟨fun e => rfl, fun l c h => ?_, fun l e h => ?_⟩
  · simp [reload_command, h]
  · simp [reload_command, h]

/-- C8 witness: both reload outcomes at concrete states. -/
theorem C8_reload_amended_witness :
    reload_command ⟨⟨[]⟩, .opened ⟨[]⟩⟩ (.exn ()) (fun l => .ok (.opened l)) =
      ⟨⟨[]⟩, .opened ⟨[]⟩⟩ ∧
    reload_command ⟨⟨[]⟩, .opened ⟨[]⟩⟩ (.ok ⟨[⟨0, "*", none, []⟩]⟩)
        (fun l => .ok (.opened l)) =
      ⟨⟨[⟨0, "*", none, []⟩]⟩, .opened ⟨[⟨0, "*", none, []⟩]⟩⟩ :=
  ⟨(C8_reload_amended ⟨⟨[]⟩, .opened ⟨[]⟩⟩ (fun l => .ok (.opened l))).1 (),
   (C8_reload_amended ⟨⟨[]⟩, .opened ⟨[]⟩⟩ (fun l => .ok (.opened l))).2.1
     ⟨[⟨0, "*", none, []⟩]⟩ (.opened ⟨[⟨0, "*", none, []⟩]⟩) rfl⟩

/-- C9: the Brzycki estimator computes `w * 36 / (37 - reps)` exactly when
`reps < 37` (where the denominator is strictly positive), and returns the
weight unchanged for every `reps ≥ 37`, so the division branch never sees
a zero or negative denominator. -/
theorem C9_brzycki_guard (w : ℚ) (reps : ℤ) :
    (reps < 37 → _brzycki w reps = w * 36 / (37 - (reps : ℚ)) ∧
      (0 : ℚ) < 37 - (reps : ℚ)) ∧
    (37 ≤ reps → _brzycki w reps = w) := by
  constructor
  · intro h
    refine ⟨by simp [_brzycki, not_le.mpr h], ?_⟩
    have : (reps : ℚ) < 37 := by exact_mod_cast h
    linarith
  · intro h
    simp [_brzycki, h]

/-- C9 witness: `brzycki(135, 5) = 135 * 36 / 32 = 151.875` and the
boundary guard `brzycki(200, 37) = 200`. -/
theorem C9_brzycki_guard_witness :
    _brzycki 135 5 = 1215 / 8 ∧ _brzycki 200 37 = 200 := by
  have h1 := (C9_brzycki_guard 135 5).1 (by decide)
  have h2 := (C9_brzycki_guard 200 37).2 (by decide)
  exact ⟨h1.1.trans (by norm_num), h2⟩

/-- C4 counterexample: one parsed weight against three rep-scheme
positions — fewer weights than positions, the last (only) weight is
reused, but NO warning is printed (`len(weights) > 1` fails), contrary to
the claim that a length mismatch produces a non-fatal warning. -/
theorem C4_counterexample :
    process_weights "24kg" = .ok [some ⟨24, .kilogram⟩] ∧
    process_details ⟨some "24kg", some "3x5", none, none, none⟩ =
      .ok ⟨[⟨5, some ⟨24, .kilogram⟩⟩, ⟨5, some ⟨24, .kilogram⟩⟩,
            ⟨5, some ⟨24, .kilogram⟩⟩], none, false⟩ := by
  decide

/-- C4 amended: `"NxR"` yields N positions of R reps and `"R1/.../Rn"`
yields the per-position counts; with both weights and reps present and
parsed (truthy), `process_details` builds exactly one TrainingSet per
rep-scheme position, taking the weight at the set's index while it exists
and reusing the LAST parsed weight for every remaining position; this
never raises, and the mismatch warning is printed only when MORE than one
weight was parsed and the counts differ (a single weight spread over many
positions warns nothing). -/
theorem C4_pairing_amended :
    (∀ (raw s r : String) (sv rv : Int),
      py_in '/' raw = false → py_in 'x' raw = true → py_split raw 'x' = [s, r] →
      python_int s = .ok sv → 0 < sv → python_int r = .ok rv →
      parse_rep_scheme raw = .ok (some (List.replicate sv.toNat rv))) ∧
    (∀ (raw : String) (rs : List Int), py_in '/' raw = true →
      mapMPy python_int (py_split raw '/') = .ok rs →
      parse_rep_scheme raw = .ok (some rs)) ∧
    (∀ (d : Details) (w raw : String) (ws : List (Option Quantity)) (rs : List Int),
      d.weight = some w → d.rep_scheme = some raw →
      process_weights w = .ok ws → parse_rep_scheme raw = .ok (some rs) →
      ws ≠ [] → rs ≠ [] →
      ∃ res, process_details d = .ok res ∧
        res.sets.length = rs.length ∧
        (∀ (i : Nat) (r : Int), rs.get? i = some r → i < ws.length →
          res.sets.get? i = some ⟨r, ws.getD i none⟩) ∧
        (∀ (i : Nat) (r : Int) (wl : Option Quantity),
          rs.get? i = some r → ws.length ≤ i → ws.getLast? = some wl →
          res.sets.get? i = some ⟨r, wl⟩) ∧
        res.warned = (decide (1 < ws.length) && decide (ws.length ≠ rs.length))) := by
  refine ⟨?_, ?_, ?_⟩
  · intro raw s r sv rv h1 h2 h3 hs hsv hr'
    have hneg : ¬ sv ≤ 0 := by omega
    simp [parse_rep_scheme, h1, h2, h3, hs, hr', hneg]
  · intro raw rs h1 h2
    simp [parse_rep_scheme, h1, h2]
  · intro d w raw ws rs hw hr hws hrs hwne hrne
    refine ⟨_, process_details_formula d w raw ws rs hw hr hws hrs hwne hrne,
      ?_, ?_, ?_, rfl⟩
    · simpa using build_sets_length ws 0 rs
    · intro i r hri hilt
      have h := build_sets_get? ws 0 i rs
      simp only [Nat.zero_add] at h
      have hg := get_or_last_of_lt ws i hilt
      simp only [DetailsResult.sets, h, hri, Option.map_some, hg]
      rfl
    · intro i r wl hri hige hlast
      have h := build_sets_get? ws 0 i rs
      simp only [Nat.zero_add] at h
      have hg := get_or_last_of_ge ws i hige
      have hl := getD_last_of_getLast? ws wl hlast
      simp only [DetailsResult.sets, h, hri, Option.map_some, hg, hl]
      rfl

/-- C4 witness: the scheme grammars and the pad-with-last pairing at
concrete inputs (two weights against the three positions of `5/3/1`). -/
theorem C4_pairing_amended_witness :
    parse_rep_scheme "3x5" = .ok (some [5, 5, 5]) ∧
    parse_rep_scheme "5/3/1" = .ok (some [5, 3, 1]) ∧
    (∃ res, process_details ⟨some "24kg/32kg", some "5/3/1", none, none, none⟩ =
        .ok res ∧
      res.sets.length = 3 ∧
      res.sets.get? 0 = some ⟨5, some ⟨24, .kilogram⟩⟩ ∧
      res.sets.get? 2 = some ⟨1, some ⟨32, .kilogram⟩⟩ ∧
      res.warned = true) := by
  refine ⟨?_, ?_, ?_⟩
  · have h := C4_pairing_amended.1 "3x5" "3" "5" 3 5 (by decide) (by decide)
      (by decide) (by decide) (by decide) (by decide)
    rw [h]
    decide
  · have h := C4_pairing_amended.2.1 "5/3/1" [5, 3, 1] (by decide) (by decide)
    rw [h]
  · obtain ⟨res, h1, h2, h3, h4, h5⟩ := C4_pairing_amended.2.2
      ⟨some "24kg/32kg", some "5/3/1", none, none, none⟩ "24kg/32kg" "5/3/1"
      [some ⟨24, .kilogram⟩, some ⟨32, .kilogram⟩] [5, 3, 1]
      rfl rfl (by decide) (by decide) (by decide) (by decide)
    refine ⟨res, h1, by simpa using h2, ?_, ?_, by rw [h5]; decide⟩
    · have := h3 0 5 (by decide) (by decide)
      simpa using this
    · have := h4 2 1 (some ⟨32, .kilogram⟩) (by decide) (by decide) (by decide)
      simpa using this

/-- C10 counterexample: a details map whose weight text parses to no
quantity (`"abc"` → `[None]`, a truthy list) together with a rep scheme
does NOT give an empty set list: three bodyweight sets carrying the parsed
rep counts are created. -/
theorem C10_counterexample :
    process_weights "abc" = .ok [none] ∧
    process_details ⟨some "abc", some "3x5", none, none, none⟩ =
      .ok ⟨[⟨5, none⟩, ⟨5, none⟩, ⟨5, none⟩], none, false⟩ ∧
    ([⟨5, none⟩, ⟨5, none⟩, ⟨5, none⟩] ≠ ([] : List TrainingSet)) := by
  refine ⟨by decide, by decide, by decide⟩

/-- C10 amended: when the weight key is ABSENT, `process_details` builds no
sets (the rep information is dropped); but when a weight text is present
and every slice fails to parse, the parsed list `[None, ...]` is truthy
and one bodyweight set (weight = None) is built per rep-scheme position,
carrying the rep counts. -/
theorem C10_weightless_amended :
    (∀ (d : Details) (res : DetailsResult), d.weight = none →
      process_details d = .ok res → res.sets = []) ∧
    (∀ (d : Details) (w raw : String) (ws : List (Option Quantity)) (rs : List Int),
      d.weight = some w → d.rep_scheme = some raw →
      process_weights w = .ok ws → ws ≠ [] → (∀ x ∈ ws, x = none) →
      parse_rep_scheme raw = .ok (some rs) → rs ≠ [] →
      process_details d = .ok ⟨rs.map (fun r => TrainingSet.mk r none),
        d.note.map strip_note,
        decide (1 < ws.length) && decide (ws.length ≠ rs.length)⟩) := by
  constructor
  · intro d res hwn hok
    unfold process_details at hok
    rw [hwn] at hok
    cases h' : (match d.rep_scheme with
                | some raw => parse_rep_scheme raw
                | none => (PyRes.ok none : PyRes Unit (Option (List Int)))) with
    | exn e =>
      rw [h'] at hok
      simp at hok
    | ok reps =>
      rw [h'] at hok
      cases reps with
      | none =>
        simp only [PyRes.ok.injEq] at hok
        rw [← hok]
      | some rs =>
        simp only [PyRes.ok.injEq] at hok
        rw [← hok]
  · intro d w raw ws rs hw hr hws hwne hall hrs hrne
    rw [process_details_formula d w raw ws rs hw hr hws hrs hwne hrne,
      build_sets_all_none ws hall 0 rs]

/-- C10 witness: both legs at concrete inputs — no weight key drops the
reps; an unparseable weight text yields bodyweight sets with the reps. -/
theorem C10_weightless_amended_witness :
    DetailsResult.sets ⟨[], none, false⟩ = [] ∧
    process_details ⟨some "xyz", some "2x8", none, none, none⟩ =
      .ok ⟨[⟨8, none⟩, ⟨8, none⟩], none, false⟩ := by
  constructor
  · exact C10_weightless_amended.1 ⟨none, some "5/3/1", none, none, none⟩
      ⟨[], none, false⟩ rfl (by decide)
  · have h := C10_weightless_amended.2 ⟨some "xyz", some "2x8", none, none, none⟩
      "xyz" "2x8" [none] [8, 8] rfl rfl (by decide) (by decide) (by decide)
      (by decide) (by decide)
    rw [h]
    decide

/-- C6 counterexample: the `weekly-num` key is NOT "ISO year + Sunday-based
week number".  2024-01-07 (a Sunday) and 2024-01-08 (the Monday after it)
lie in the same Sunday-based week, yet the code keys them `2024-W01` and
`2024-W02`; and at both 2024-01-08 and 2024-12-30 the code's key differs
from the key the claim describes (`%W` is Monday-based, `%Y` is the
calendar year, not the ISO year). -/
theorem C6_counterexample :
    time_bin "weekly-num" (daysFromCivil 2024 1 7) = .ok "2024-W01" ∧
    time_bin "weekly-num" (daysFromCivil 2024 1 8) = .ok "2024-W02" ∧
    sundayWeekNum (daysFromCivil 2024 1 7) = sundayWeekNum (daysFromCivil 2024 1 8) ∧
    wdaySunday (daysFromCivil 2024 1 7) = 0 ∧
    specWeeklyNumKey (daysFromCivil 2024 1 8) = "2024-W01" ∧
    time_bin "weekly-num" (daysFromCivil 2024 12 30) = .ok "2024-W53" ∧
    specWeeklyNumKey (daysFromCivil 2024 12 30) = "2025-W52" := by
  decide

/-- C6 amended: `daily` yields the ISO date string; `weekly` yields the ISO
date of the Sunday beginning the containing week (`date - weekday` with
Sunday = 0), which always falls on a Sunday; `weekly-num` yields the
CALENDAR year plus the zero-padded MONDAY-based week number (SQLite `%W`:
week 01 starts at the year's first Monday, earlier days are week 00);
`monthly` yields `YYYY-MM`; any unknown granularity fails with an
unknown-bucket error. -/
theorem C6_time_bin_amended (n : ℤ) :
    time_bin "daily" n = .ok (sqlite_Ymd n) ∧
    (time_bin "weekly" n = .ok (sqlite_Ymd (n - wdaySunday n)) ∧
      wdaySunday (n - wdaySunday n) = 0) ∧
    time_bin "weekly-num" n = .ok (pad4 (yearOf n) ++ "-W" ++ pad2 (mondayWeekNum n)) ∧
    time_bin "monthly" n = .ok (pad4 (yearOf n) ++ "-" ++ pad2 (monthOf n)) ∧
    (∀ b, b ∉ TIME_BINS → time_bin b n = .exn ()) := by
  refine ⟨rfl, ⟨rfl, ?_⟩, ?_, rfl, ?_⟩
  · simp only [wdaySunday]
    omega
  · have key : (n + 3) % 7 = ((n + 4) % 7 + 6) % 7 := by omega
    simp [time_bin, sqlite_YW, mondayWeekNum, mondayWeekday, wdaySunday, key]
  · intro b hb
    simp only [TIME_BINS, List.mem_cons, List.not_mem_nil, or_false, not_or] at hb
    obtain ⟨h1, h2, h3, h4⟩ := hb
    simp [time_bin, h1, h2, h3, h4]

/-- C6 witness: concrete evaluations through the amended theorem —
2024-01-10 (a Wednesday) buckets daily to its own date, weekly to the
Sunday 2024-01-07, and an unknown granularity errors. -/
theorem C6_time_bin_amended_witness :
    time_bin "daily" (daysFromCivil 2024 1 10) = .ok "2024-01-10" ∧
    time_bin "weekly" (daysFromCivil 2024 1 10) = .ok "2024-01-07" ∧
    time_bin "hourly" (daysFromCivil 2024 1 10) = .exn () := by
  refine ⟨?_, ?_, ?_⟩
  · rw [(C6_time_bin_amended (daysFromCivil 2024 1 10)).1]
    decide
  · rw [(C6_time_bin_amended (daysFromCivil 2024 1 10)).2.1.1]
    decide
  · exact (C6_time_bin_amended (daysFromCivil 2024 1 10)).2.2.2.2 "hourly" (by decide)

/-- C7 counterexample: with two required params `movement` and `unit` and
only `--movement squat` supplied, the missing-required error names BOTH
required flags (including the supplied `--movement`), not exactly the
missing one (`--unit` alone). -/
theorem C7_counterexample :
    consume_tokens
        [⟨"movement", .str, true, none, some "m"⟩, ⟨"unit", .str, true, none, none⟩]
        ["--movement", "squat"] [] = .ok [("movement", .str "squat")] ∧
    parse_report_args
        [⟨"movement", .str, true, none, some "m"⟩, ⟨"unit", .str, true, none, none⟩]
        ["--movement", "squat"] = .exn (.missingRequired ["--movement", "--unit"]) ∧
    (["--movement", "--unit"] ≠ (["--unit"] : List String)) := by
  refine ⟨by decide, by decide, by decide⟩

/-- C7 amended: after all tokens are consumed, if one or more required
params were not supplied, `parse_report_args` raises a missing-required
error whose message names ALL required flags of the spec (supplied or
not), not exactly the missing ones; and on success, every param that was
not supplied receives its declared default (Python `None` when no default
was declared). -/
theorem C7_args_amended (params : List Param) (tokens : List String)
    (parsed : List (String × PyVal))
    (hnodup : (params.map (fun p => p.name)).Nodup)
    (hc : consume_tokens params tokens [] = .ok parsed) :
    ((∃ p, p ∈ params ∧ p.required = true ∧ hasKey parsed p.name = false) →
      parse_report_args params tokens =
        .exn (.missingRequired ((params.filter (fun q => q.required)).map
          (fun q => "--" ++ q.name)))) ∧
    (∀ final, parse_report_args params tokens = .ok final →
      ∀ p, p ∈ params → hasKey parsed p.name = false →
        lookupKey final p.name = some (p.default.getD .none)) := by
  have hunf : parse_report_args params tokens = apply_defaults params params parsed := by
    unfold parse_report_args
    rw [hc]
  constructor
  · intro h
    rw [hunf]
    exact apply_defaults_missing params params parsed hnodup h
  · intro final hfin p hp hpk
    rw [hunf] at hfin
    exact apply_defaults_defaults params params parsed final hnodup hfin p hp hpk

/-- C7 witness: the unsupplied optional `bin` receives its declared
default `"weekly"`; an unsupplied required param triggers the
missing-required error. -/
theorem C7_args_amended_witness :
    lookupKey [("movement", .str "squat"), ("bin", .str "weekly")] "bin" =
      some (.str "weekly") ∧
    parse_report_args
        [⟨"movement", .str, true, none, some "m"⟩, ⟨"unit", .str, true, none, none⟩]
        ["-m", "squat"] = .exn (.missingRequired ["--movement", "--unit"]) := by
  constructor
  · exact (C7_args_amended
      [⟨"movement", .str, true, none, some "m"⟩,
       ⟨"bin", .str, false, some (.str "weekly"), some "b"⟩]
      ["-m", "squat"] [("movement", .str "squat")] (by decide) (by decide)).2
      [("movement", .str "squat"), ("bin", .str "weekly")] (by decide)
      ⟨"bin", .str, false, some (.str "weekly"), some "b"⟩ (by decide) (by decide)
  · have h := (C7_args_amended
      [⟨"movement", .str, true, none, some "m"⟩, ⟨"unit", .str, true, none, none⟩]
      ["-m", "squat"] [("movement", .str "squat")] (by decide) (by decide)).1
      ⟨⟨"unit", .str, true, none, none⟩, by decide, rfl, by decide⟩
    rw [h]
    decide

